import Mathlib

/-!
Verification of the github-analyzer core against its natural-language
specification.  The definitions below are shallow embeddings of the
TypeScript sources:

* `src/lib/cache.ts`   — `LRUCache` (bounded TTL cache) and `RateLimiter`;
* `src/lib/openai.ts`  — the aggregate-statistics part of
  `buildAnalysisPayload` (recency score, consistency score, topics
  breakdown);
* the utility module    — `calculateRecencyScore`,
  `calculateConsistencyScore`;
* the GitHub client     — `githubFetch` status handling, `detectWeb3`.

JavaScript `Map` objects are modelled as association lists in insertion
order (a `Map` iterates keys in insertion order; `set` on an existing key
updates the value in place without moving the key, `delete`/re-`set`
moves it to the end).  Timestamps (`Date.now()`, `getTime()`) are
integers in milliseconds, passed explicitly.  JavaScript numbers are
modelled as `ℚ` where fractional values occur, `ℤ`/`ℕ` otherwise.
-/

namespace GithubAnalyzer

/-- JavaScript `Math.round`: round half towards positive infinity,
i.e. `⌊x + 1/2⌋`. -/
def jsRound (q : ℚ) : ℤ := ⌊q + 1/2⌋

/-- Milliseconds per day, the divisor `1000 * 60 * 60 * 24` used by the
source when converting timestamp differences to days. -/
def msPerDay : ℚ := 1000 * 60 * 60 * 24

/-! ### JavaScript `Map` as an association list in insertion order -/

/-- `Map.prototype.get`: the value at the first (only) occurrence of
`k`. -/
def mapFind {E : Type} (l : List (String × E)) (k : String) : Option E :=
  match l with
  | [] => none
  | (k', v) :: rest => if k' = k then some v else mapFind rest k

/-- `Map.prototype.delete`: remove the first occurrence of `k`, keeping
the order of the other entries. -/
def mapDelete {E : Type} (l : List (String × E)) (k : String) :
    List (String × E) :=
  match l with
  | [] => []
  | (k', v) :: rest => if k' = k then rest else (k', v) :: mapDelete rest k

/-- `Map.prototype.set`: update in place when the key is present,
otherwise append at the end. -/
def mapSet {E : Type} (l : List (String × E)) (k : String) (v : E) :
    List (String × E) :=
  match l with
  | [] => [(k, v)]
  | (k', v') :: rest =>
    if k' = k then (k', v) :: rest else (k', v') :: mapSet rest k v

/-- `Map.prototype.has`. -/
def mapHas {E : Type} (l : List (String × E)) (k : String) : Bool :=
  (mapFind l k).isSome

/-! ### `src/lib/cache.ts` — `LRUCache` -/

/-- A cache entry: `{ data, timestamp, expiresAt }`. -/
structure CacheEntry (V : Type) where
  data : V
  timestamp : ℤ
  expiresAt : ℤ
deriving DecidableEq, Repr

/-- The `LRUCache` state: the backing `Map` (insertion order), the
capacity `maxSize` and the TTL in milliseconds. -/
structure LRUCache (V : Type) where
  cache : List (String × CacheEntry V)
  maxSize : ℕ
  ttl : ℤ
deriving DecidableEq, Repr

/-- The `LRUCache` constructor: empty map, `ttl = ttlMinutes * 60 * 1000`. -/
def LRUCache.new (V : Type) (maxSize : ℕ) (ttlMinutes : ℤ) : LRUCache V :=
  { cache := [], maxSize := maxSize, ttl := ttlMinutes * 60 * 1000 }

/-- `LRUCache.get`: absent when the key is unknown; evict and return
absent when `now > entry.expiresAt`; otherwise move the entry to the end
(most recently used) and return its data.  `now` stands for the
`Date.now()` call inside the method. -/
def LRUCache.get {V : Type} (c : LRUCache V) (now : ℤ) (key : String) :
    Option V × LRUCache V :=
  match mapFind c.cache key with
  | none => (none, c)
  | some entry =>
    if now > entry.expiresAt then
      (none, { c with cache := mapDelete c.cache key })
    else
      (some entry.data,
       { c with cache := mapSet (mapDelete c.cache key) key entry })

/-- `LRUCache.set`: when at capacity and the key is new (by raw
`Map.has`), delete the first key of the map (if any), then insert the
new entry with `expiresAt = now + ttl`. -/
def LRUCache.set {V : Type} (c : LRUCache V) (now : ℤ) (key : String)
    (value : V) : LRUCache V :=
  let c1 :=
    if c.maxSize ≤ c.cache.length ∧ mapHas c.cache key = false then
      match c.cache with
      | [] => c
      | (firstKey, _) :: _ => { c with cache := mapDelete c.cache firstKey }
    else c
  { c1 with cache := mapSet c1.cache key ⟨value, now, now + c.ttl⟩ }

/-- `LRUCache.has`: implemented as `get(key) !== null`, so it shares
`get`'s eviction/recency side effects. -/
def LRUCache.hasKey {V : Type} (c : LRUCache V) (now : ℤ) (key : String) :
    Bool × LRUCache V :=
  let r := c.get now key
  (r.1.isSome, r.2)

/-- `LRUCache.clear`. -/
def LRUCache.clear {V : Type} (c : LRUCache V) : LRUCache V :=
  { c with cache := [] }

/-- `LRUCache.size`. -/
def LRUCache.size {V : Type} (c : LRUCache V) : ℕ := c.cache.length

/-- One client-visible cache operation, with the `Date.now()` value at
the time of the call made explicit. -/
inductive CacheOp (V : Type) where
  | get (now : ℤ) (key : String)
  | set (now : ℤ) (key : String) (value : V)
  | has (now : ℤ) (key : String)
  | clear

/-- Apply one operation, keeping only the state. -/
def applyOp {V : Type} (c : LRUCache V) : CacheOp V → LRUCache V
  | .get now key => (c.get now key).2
  | .set now key v => c.set now key v
  | .has now key => (c.hasKey now key).2
  | .clear => c.clear

/-- Run a sequence of operations from a starting state. -/
def applyOps {V : Type} (c : LRUCache V) : List (CacheOp V) → LRUCache V
  | [] => c
  | op :: ops => applyOps (applyOp c op) ops

/-! ### `src/lib/cache.ts` — `RateLimiter` -/

/-- A rate-limit entry: `{ count, resetAt }`. -/
structure RateLimitEntry where
  count : ℕ
  resetAt : ℤ
deriving DecidableEq, Repr

/-- The `RateLimiter` construction parameters: `maxRequests` requests per
window of `windowMs` milliseconds (`windowMinutes * 60 * 1000`). -/
structure RateLimiter where
  maxRequests : ℕ
  windowMs : ℤ
deriving DecidableEq, Repr

/-- The record returned by `RateLimiter.check`. -/
structure RLResult where
  allowed : Bool
  remaining : ℤ
  resetAt : ℤ
deriving DecidableEq, Repr

/-- `RateLimiter.check`: start a fresh window when the identifier is
unknown or `now > resetAt` (count 1, `resetAt = now + windowMs`,
`remaining = maxRequests - 1`); deny with `remaining = 0` and the stored
`resetAt` when `count >= maxRequests`; otherwise increment the count and
allow with `remaining = maxRequests - count`.  The `limits` map is the
explicit state. -/
def RateLimiter.check (rl : RateLimiter) (identifier : String) (now : ℤ)
    (limits : List (String × RateLimitEntry)) :
    RLResult × List (String × RateLimitEntry) :=
  match mapFind limits identifier with
  | none =>
    let resetAt := now + rl.windowMs
    (⟨true, (rl.maxRequests : ℤ) - 1, resetAt⟩,
     mapSet limits identifier ⟨1, resetAt⟩)
  | some entry =>
    if now > entry.resetAt then
      let resetAt := now + rl.windowMs
      (⟨true, (rl.maxRequests : ℤ) - 1, resetAt⟩,
       mapSet limits identifier ⟨1, resetAt⟩)
    else if rl.maxRequests ≤ entry.count then
      (⟨false, 0, entry.resetAt⟩, limits)
    else
      (⟨true, (rl.maxRequests : ℤ) - (entry.count + 1), entry.resetAt⟩,
       mapSet limits identifier ⟨entry.count + 1, entry.resetAt⟩)

/-- Run `check` once per listed time, threading the `limits` state and
collecting the results in call order. -/
def checkSeq (rl : RateLimiter) (identifier : String) :
    List ℤ → List (String × RateLimitEntry) →
    List RLResult × List (String × RateLimitEntry)
  | [], limits => ([], limits)
  | t :: ts, limits =>
    let r := rl.check identifier t limits
    let rest := checkSeq rl identifier ts r.2
    (r.1 :: rest.1, rest.2)

/-! ### Recency scores

Two copies exist in the source: one inline in `buildAnalysisPayload`
(`src/lib/openai.ts`), one in the utility `calculateRecencyScore` used by
`fetchGitHubSummary`'s `activitySignals`.  Both take the push timestamps
(ms) and the current time `now` (the `Date.now()` call). -/

/-- Days elapsed between a stored timestamp and `now`:
`(now - t) / (1000*60*60*24)`. -/
def daysSince (now t : ℤ) : ℚ := ((now - t : ℤ) : ℚ) / msPerDay

/-- The recency computation inline in `buildAnalysisPayload`
(`aggregateStats.recencyScore`): 0 for an empty list, otherwise the
average days-since-last-push bucketed by
`<30→100, <90→80, <180→60, <365→40, else→20`. -/
def buildRecencyScore (now : ℤ) (pushDates : List ℤ) : ℤ :=
  if pushDates.length = 0 then 0
  else
    let avgDaysSinceLastPush :=
      (pushDates.map (fun t => daysSince now t)).sum / (pushDates.length : ℚ)
    if avgDaysSinceLastPush < 30 then 100
    else if avgDaysSinceLastPush < 90 then 80
    else if avgDaysSinceLastPush < 180 then 60
    else if avgDaysSinceLastPush < 365 then 40
    else 20

/-- The per-repository bucket used by the utility `calculateRecencyScore`:
`<30→100, <90→80, <180→60, <365→40, <730→20, else→10`. -/
def repoRecencyBucket (d : ℚ) : ℤ :=
  if d < 30 then 100
  else if d < 90 then 80
  else if d < 180 then 60
  else if d < 365 then 40
  else if d < 730 then 20
  else 10

/-- The utility `calculateRecencyScore`: 0 for an empty list, otherwise
the rounded mean of the per-repository bucket scores. -/
def calculateRecencyScore (now : ℤ) (pushDates : List ℤ) : ℤ :=
  if pushDates.length = 0 then 0
  else
    let scores :=
      pushDates.map (fun t => ((repoRecencyBucket (daysSince now t) : ℤ) : ℚ))
    jsRound (scores.sum / (pushDates.length : ℚ))

/-! ### Consistency scores

Again two copies: one inline in `buildAnalysisPayload`, one in the
utility `calculateConsistencyScore`.  Both call `Math.sqrt` on the gap
variance; `Math.sqrt` on floating-point numbers is abstracted as a
parameter `sq : ℚ → ℚ` shared by all copies. -/

/-- `Array.prototype.sort((a, b) => a - b)` on timestamps: sort
ascending (insertion sort; stability is irrelevant on integers). -/
def insertSorted (x : ℤ) : List ℤ → List ℤ
  | [] => [x]
  | y :: ys => if x ≤ y then x :: y :: ys else y :: insertSorted x ys

/-- Ascending sort of a timestamp list. -/
def sortAsc (l : List ℤ) : List ℤ := l.foldr insertSorted []

/-- Successive gaps `sorted[i] - sorted[i-1]` of a sorted list, as `ℚ`. -/
def successiveGaps (sorted : List ℤ) : List ℚ :=
  List.zipWith (fun a b => ((b - a : ℤ) : ℚ)) sorted sorted.tail

/-- `100 - (stdDev / avgGap) * 50` for a gap list, with `Math.sqrt`
abstracted as `sq`. -/
def rawConsistency (sq : ℚ → ℚ) (gaps : List ℚ) : ℚ :=
  let avgGap := gaps.sum / (gaps.length : ℚ)
  let variance :=
    (gaps.map (fun gap => (gap - avgGap) ^ 2)).sum / (gaps.length : ℚ)
  let stdDev := sq variance
  let cv := stdDev / avgGap
  100 - cv * 50

/-- The consistency computation inline in `buildAnalysisPayload`
(`aggregateStats.consistencyScore`): 50 unless more than one update
timestamp is present, otherwise `Math.max(0, Math.round(100 - cv*50))`
over the successive gaps of the ascending-sorted timestamps. -/
def buildConsistencyScore (sq : ℚ → ℚ) (updates : List ℤ) : ℤ :=
  if 1 < updates.length then
    max 0 (jsRound (rawConsistency sq (successiveGaps (sortAsc updates))))
  else 50

/-- The utility `calculateConsistencyScore`: 0 for an empty list, 50 when
fewer than 2 timestamps, otherwise `Math.round(Math.max(0, 100 - cv*50))`. -/
def calculateConsistencyScore (sq : ℚ → ℚ) (updates : List ℤ) : ℤ :=
  if updates.length = 0 then 0
  else if (sortAsc updates).length < 2 then 50
  else jsRound (max 0 (rawConsistency sq (successiveGaps (sortAsc updates))))

/-- The spec's consistency formula, stated from its words: sort the
update timestamps ascending, take successive gaps, score
`max(0, round(100 - (stddev/mean_gap)*50))`, and 50 whenever fewer than
2 timestamps are available. -/
def specConsistencyScore (sq : ℚ → ℚ) (updates : List ℤ) : ℤ :=
  if updates.length < 2 then 50
  else max 0 (jsRound (rawConsistency sq (successiveGaps (sortAsc updates))))

/-! ### Topics breakdown (`buildAnalysisPayload`) -/

/-- One step of the topics loop:
`topicsBreakdown[topic] = (topicsBreakdown[topic] || 0) + 1`. -/
def bumpTopic (m : List (String × ℕ)) (topic : String) :
    List (String × ℕ) :=
  mapSet m topic ((mapFind m topic).getD 0 + 1)

/-- The `topicsBreakdown` accumulation in `buildAnalysisPayload`: for
each repository, for each topic in its topic list, increment that
topic's counter.  A repository is represented by its topic list, the
only field this loop reads. -/
def topicsBreakdown (repos : List (List String)) : List (String × ℕ) :=
  repos.foldl (fun m topics => topics.foldl bumpTopic m) []

/-! ### GitHub client — `githubFetch` status handling -/

/-- The `GitHubAPIError` payload: message, HTTP status code, and (for
403) the parsed `x-ratelimit-remaining` header. -/
structure GitHubAPIError where
  message : String
  statusCode : Option ℕ
  rateLimitRemaining : Option ℤ
deriving DecidableEq, Repr

/-- `Response.ok` of the WHATWG fetch standard: status in `200..299`.
(The response object is a platform primitive, not repository code.) -/
def responseOk (status : ℕ) : Bool := decide (200 ≤ status ∧ status ≤ 299)

/-- The status dispatch of `githubFetch`, shared by `fetchGitHubProfile`
and `fetchGitHubRepos`: on a non-ok response, 404 ↦ not-found error,
403 ↦ rate-limited error carrying
`rateLimitRemaining ? parseInt(rateLimitRemaining) : 0` (the header is
modelled already parsed, `none` when absent), anything else ↦ a generic
error carrying the status code and `statusText`. -/
def githubFetchStatus (status : ℕ) (statusText : String)
    (rateLimitHeader : Option ℤ) : Except GitHubAPIError Unit :=
  if responseOk status then .ok ()
  else if status = 404 then
    .error ⟨"User or resource not found", some 404, none⟩
  else if status = 403 then
    .error ⟨"Rate limit exceeded or forbidden", some 403,
            some (rateLimitHeader.getD 0)⟩
  else
    .error ⟨"GitHub API error: " ++ statusText, some status, none⟩

/-! ### `detectWeb3` -/

/-- Substring test on character lists, used to model JavaScript
`String.prototype.includes`. -/
def containsSub : List Char → List Char → Bool
  | _, [] => true
  | [], _ :: _ => false
  | c :: cs, p :: ps =>
    List.isPrefixOf (p :: ps) (c :: cs) || containsSub cs (p :: ps)

/-- JavaScript `s.includes(pat)`. -/
def strIncludes (s pat : String) : Bool := containsSub s.toList pat.toList

/-- JavaScript `[...new Set(l)]`: deduplicate keeping the first
occurrence of each element, preserving order. -/
def jsDedup : List String → List String
  | [] => []
  | x :: xs => x :: jsDedup (xs.filter (fun y => y != x))
termination_by l => l.length
decreasing_by
  simp only [List.length_cons]
  exact Nat.lt_succ_of_le (List.length_filter_le _ _)

/-- The fields of a repository read by `detectWeb3`: the topic list and
the primary language (other `GitHubRepo` fields are not consulted). -/
structure GitHubRepo where
  topics : List String
  language : Option String
deriving DecidableEq, Repr

/-- The fields of `RepoContent` read by `detectWeb3` (the remaining
fields — manifest, tests/CI/lint booleans — are not consulted). -/
structure RepoContent where
  readme : Option String
  hasSolidityContracts : Bool
  web3Frameworks : List String
deriving DecidableEq, Repr

/-- Confidence tier of a Web3 detection. -/
inductive Confidence where
  | high
  | medium
  | low
deriving DecidableEq, Repr

/-- The `Web3Detection` result record. -/
structure Web3Detection where
  isWeb3 : Bool
  detectedStacks : List String
  confidence : Confidence
  evidence : List String
deriving DecidableEq, Repr

/-- The fixed topic vocabulary of `detectWeb3`. -/
def web3Topics : List String :=
  ["web3", "blockchain", "solidity", "ethereum", "evm", "smart-contract",
   "smart-contracts", "defi", "nft", "nfts", "wagmi", "viem", "hardhat",
   "foundry", "truffle", "thegraph", "subgraph", "solana", "anchor",
   "near", "cosmos", "substrate", "polkadot", "web3js", "ethers", "dapp",
   "dapps", "dao"]

/-- The fixed README keyword vocabulary of `detectWeb3`. -/
def web3Keywords : List String :=
  ["ethereum", "smart contract", "blockchain", "web3", "defi", "nft",
   "token", "solidity", "hardhat", "foundry", "metamask", "wallet",
   "onchain", "on-chain"]

/-- `detectWeb3(repo, content)`: accumulate evidence strings and stack
tokens from topics, detected frameworks, a Solidity contracts
directory, README keyword matches (recorded only when more than 2
keywords match, listing the first 3), and the primary language; then
`isWeb3 = evidence.length > 0`, stacks deduplicated, and confidence
`>=3 → high, >=2 → medium, else low`. -/
def detectWeb3 (repo : GitHubRepo) (content : Option RepoContent) :
    Web3Detection :=
  let matchedTopics :=
    repo.topics.filter (fun topic => web3Topics.contains topic.toLower)
  let topicsEv : List String × List String :=
    if 0 < matchedTopics.length then
      (["Topics: " ++ String.intercalate ", " matchedTopics], matchedTopics)
    else ([], [])
  let contentEv : List String × List String :=
    match content with
    | none => ([], [])
    | some c =>
      let frameworksEv : List String × List String :=
        if 0 < c.web3Frameworks.length then
          (["Frameworks: " ++ String.intercalate ", " c.web3Frameworks],
           c.web3Frameworks)
        else ([], [])
      let contractsEv : List String × List String :=
        if c.hasSolidityContracts = true ∧ repo.language = some "Solidity" then
          (["Solidity contracts detected"], ["solidity"])
        else ([], [])
      let readmeEv : List String :=
        match c.readme with
        | none => []
        | some readme =>
          let matchedKeywords :=
            web3Keywords.filter (fun keyword =>
              strIncludes readme.toLower keyword)
          if 2 < matchedKeywords.length then
            ["README contains: " ++
             String.intercalate ", " (matchedKeywords.take 3)]
          else []
      (frameworksEv.1 ++ contractsEv.1 ++ readmeEv,
       frameworksEv.2 ++ contractsEv.2)
  let languageEv : List String × List String :=
    if repo.language = some "Solidity" then
      (["Primary language: Solidity"], ["solidity"])
    else ([], [])
  let evidence := topicsEv.1 ++ contentEv.1 ++ languageEv.1
  let detectedStacks := topicsEv.2 ++ contentEv.2 ++ languageEv.2
  { isWeb3 := decide (0 < evidence.length)
    detectedStacks := jsDedup detectedStacks
    confidence :=
      if 3 ≤ evidence.length then .high
      else if 2 ≤ evidence.length then .medium
      else .low
    evidence := evidence }

/-! ### Helper lemmas about the `Map` model -/

theorem mapFind_mapSet_self {E : Type} (l : List (String × E)) (k : String)
    (v : E) : mapFind (mapSet l k v) k = some v := by
  induction l with
  | nil => simp [mapSet, mapFind]
  | cons hd tl ih =>
    obtain ⟨k', v'⟩ := hd
    by_cases h : k' = k
    · simp [mapSet, mapFind, h]
    · simp [mapSet, mapFind, h, ih]

theorem mapFind_mapSet_ne {E : Type} (l : List (String × E)) (k k' : String)
    (v : E) (h : k' ≠ k) : mapFind (mapSet l k v) k' = mapFind l k' := by
  have hne : ¬(k = k') := fun hk => h hk.symm
  induction l with
  | nil => simp [mapSet, mapFind, hne]
  | cons hd tl ih =>
    obtain ⟨k0, v0⟩ := hd
    by_cases h0 : k0 = k
    · subst h0
      simp [mapSet, mapFind, hne]
    · simp only [mapSet, if_neg h0, mapFind]
      by_cases h1 : k0 = k'
      · simp [h1]
      · simp [h1, ih]

theorem mapSet_length_le {E : Type} (l : List (String × E)) (k : String)
    (v : E) : (mapSet l k v).length ≤ l.length + 1 := by
  induction l with
  | nil => simp [mapSet]
  | cons hd tl ih =>
    obtain ⟨k', v'⟩ := hd
    by_cases h : k' = k
    · simp [mapSet, h]
    · simpa [mapSet, h] using ih

theorem mapSet_length_of_has {E : Type} (l : List (String × E)) (k : String)
    (v : E) (h : mapHas l k = true) : (mapSet l k v).length = l.length := by
  induction l with
  | nil => simp [mapHas, mapFind] at h
  | cons hd tl ih =>
    obtain ⟨k', v'⟩ := hd
    by_cases hk : k' = k
    · simp [mapSet, hk]
    · simp only [mapHas, mapFind, if_neg hk] at h
      simp [mapSet, hk, ih h]

theorem mapDelete_length_of_find {E : Type} (l : List (String × E))
    (k : String) (e : E) (h : mapFind l k = some e) :
    (mapDelete l k).length + 1 = l.length := by
  induction l with
  | nil => simp [mapFind] at h
  | cons hd tl ih =>
    obtain ⟨k', v'⟩ := hd
    by_cases hk : k' = k
    · simp [mapDelete, hk]
    · simp only [mapFind, if_neg hk] at h
      simp [mapDelete, hk, ih h]

theorem mapSet_append_of_not_has {E : Type} (l : List (String × E))
    (k : String) (v : E) (h : mapHas l k = false) :
    mapSet l k v = l ++ [(k, v)] := by
  induction l with
  | nil => simp [mapSet]
  | cons hd tl ih =>
    obtain ⟨k', v'⟩ := hd
    by_cases hk : k' = k
    · simp [mapHas, mapFind, hk] at h
    · simp only [mapHas, mapFind, if_neg hk] at h
      simp [mapSet, hk, ih h]

theorem mapHas_cons_false {E : Type} (k0 k : String) (e0 : E)
    (l : List (String × E)) (h : mapHas ((k0, e0) :: l) k = false) :
    k0 ≠ k ∧ mapHas l k = false := by
  by_cases hk : k0 = k
  · simp [mapHas, mapFind, hk] at h
  · simp only [mapHas, mapFind, if_neg hk] at h
    exact ⟨hk, by simp [mapHas, h]⟩

theorem mapFind_eq_none_of_not_mem_keys {E : Type} (l : List (String × E))
    (k : String) (h : k ∉ l.map Prod.fst) : mapFind l k = none := by
  induction l with
  | nil => simp [mapFind]
  | cons hd tl ih =>
    obtain ⟨k', v'⟩ := hd
    simp only [List.map_cons, List.mem_cons, not_or] at h
    have hk : ¬(k' = k) := fun hk => h.1 hk.symm
    simp only [mapFind, if_neg hk]
    exact ih h.2

theorem mapHas_mapDelete_self_of_nodup {E : Type} (l : List (String × E))
    (k : String) (h : (l.map Prod.fst).Nodup) :
    mapHas (mapDelete l k) k = false := by
  induction l with
  | nil => simp [mapDelete, mapHas, mapFind]
  | cons hd tl ih =>
    obtain ⟨k', v'⟩ := hd
    simp only [List.map_cons, List.nodup_cons] at h
    by_cases hk : k' = k
    · subst hk
      have hnone := mapFind_eq_none_of_not_mem_keys tl k' h.1
      simp [mapDelete, mapHas, hnone]
    · simp only [mapDelete, if_neg hk, mapHas, mapFind, if_neg hk]
      exact ih h.2

/-! ### Cache invariants -/

theorem get_state_bound {V : Type} (c : LRUCache V) (now : ℤ) (key : String) :
    (c.get now key).2.cache.length ≤ c.cache.length ∧
      (c.get now key).2.maxSize = c.maxSize := by
  unfold LRUCache.get
  cases hfind : mapFind c.cache key with
  | none => simp
  | some entry =>
    have hdel := mapDelete_length_of_find c.cache key entry hfind
    by_cases hexp : now > entry.expiresAt
    · simp only [if_pos hexp]
      exact ⟨by omega, by trivial⟩
    · simp only [if_neg hexp]
      refine ⟨?_, by trivial⟩
      have := mapSet_length_le (mapDelete c.cache key) key entry
      omega

theorem set_state_bound {V : Type} (c : LRUCache V) (now : ℤ) (key : String)
    (v : V) (hmax : 1 ≤ c.maxSize) (hle : c.cache.length ≤ c.maxSize) :
    (c.set now key v).cache.length ≤ c.maxSize ∧
      (c.set now key v).maxSize = c.maxSize := by
  unfold LRUCache.set
  by_cases hcond : c.maxSize ≤ c.cache.length ∧ mapHas c.cache key = false
  · simp only [if_pos hcond]
    cases hc : c.cache with
    | nil =>
      exfalso
      rw [hc] at hle hcond
      simp at hcond
      omega
    | cons hd rest =>
      obtain ⟨k0, e0⟩ := hd
      simp only [hc]
      have hdelete : mapDelete ((k0, e0) :: rest) k0 = rest := by
        simp [mapDelete]
      simp only [hdelete]
      refine ⟨?_, by trivial⟩
      have := mapSet_length_le rest key ⟨v, now, now + c.ttl⟩
      have hlen : c.cache.length = rest.length + 1 := by simp [hc]
      omega
  · simp only [if_neg hcond]
    refine ⟨?_, by trivial⟩
    by_cases hhas : mapHas c.cache key = true
    · rw [mapSet_length_of_has c.cache key ⟨v, now, now + c.ttl⟩ hhas]
      exact hle
    · have hfalse : mapHas c.cache key = false := by
        cases h : mapHas c.cache key
        · rfl
        · exact absurd h hhas
      have hlt : ¬ c.maxSize ≤ c.cache.length := fun hge => hcond ⟨hge, hfalse⟩
      have := mapSet_length_le c.cache key ⟨v, now, now + c.ttl⟩
      omega

theorem applyOp_state_bound {V : Type} (c : LRUCache V) (op : CacheOp V)
    (hmax : 1 ≤ c.maxSize) (hle : c.cache.length ≤ c.maxSize) :
    (applyOp c op).cache.length ≤ c.maxSize ∧
      (applyOp c op).maxSize = c.maxSize := by
  cases op with
  | get now key =>
    have h := get_state_bound c now key
    exact ⟨le_trans h.1 hle, h.2⟩
  | set now key v => exact set_state_bound c now key v hmax hle
  | has now key =>
    have h := get_state_bound c now key
    exact ⟨le_trans h.1 hle, h.2⟩
  | clear => exact ⟨by simp [applyOp, LRUCache.clear], by trivial⟩

theorem applyOps_state_bound {V : Type} (ops : List (CacheOp V)) :
    ∀ c : LRUCache V, 1 ≤ c.maxSize → c.cache.length ≤ c.maxSize →
      (applyOps c ops).cache.length ≤ c.maxSize ∧
        (applyOps c ops).maxSize = c.maxSize := by
  induction ops with
  | nil => intro c _ hle; exact ⟨hle, rfl⟩
  | cons op ops ih =>
    intro c hmax hle
    have hstep := applyOp_state_bound c op hmax hle
    have := ih (applyOp c op) (hstep.2 ▸ hmax) (hstep.2 ▸ hstep.1)
    exact ⟨hstep.2 ▸ this.1, hstep.2 ▸ this.2⟩

/-! ### Claims about the cache -/

/-- C2 counterexample: a cache of capacity `C = 0` accepts its first
distinct key without evicting anything, so `size()` exceeds `C`,
contradicting the claim as stated for every capacity. -/
theorem lruCache_eviction_cex :
    ((LRUCache.new ℕ 0 10).set 0 "k" 1).size = 1 ∧
      ¬ ((LRUCache.new ℕ 0 10).set 0 "k" 1).size ≤ 0 := by
  decide

/-- C2 (amended: capacity `C ≥ 1`): starting from an empty cache of
capacity `C`, no sequence of get/set/has/clear operations pushes
`size()` above `C`; a `set` of a new key when `size() = C` deletes
exactly the first (least-recently-used) entry of the insertion-ordered
map before appending the new one, leaving `size() = C`; and a `set` on
the oldest existing key overwrites its entry in place without evicting
anything. -/
theorem lruCache_eviction (V : Type) (C : ℕ) (ttlMinutes : ℤ)
    (hC : 1 ≤ C) :
    (∀ ops : List (CacheOp V),
      (applyOps (LRUCache.new V C ttlMinutes) ops).size ≤ C) ∧
    (∀ (c : LRUCache V) (now : ℤ) (key : String) (v : V) (k0 : String)
        (e0 : CacheEntry V) (rest : List (String × CacheEntry V)),
      c.maxSize = C → c.cache = (k0, e0) :: rest → c.cache.length = C →
      mapHas c.cache key = false →
      (c.set now key v).cache = rest ++ [(key, ⟨v, now, now + c.ttl⟩)] ∧
        (c.set now key v).size = C) ∧
    (∀ (c : LRUCache V) (now : ℤ) (key : String) (v : V)
        (e0 : CacheEntry V) (rest : List (String × CacheEntry V)),
      c.cache = (key, e0) :: rest →
      (c.set now key v).cache = (key, ⟨v, now, now + c.ttl⟩) :: rest) := by
  refine ⟨?_, ?_, ?_⟩
  · intro ops
    exact (applyOps_state_bound ops (LRUCache.new V C ttlMinutes) hC
      (by simp [LRUCache.new])).1
  · intro c now key v k0 e0 rest hmaxeq hc hlen hhas
    rw [hc] at hlen hhas
    have hrest : mapHas rest key = false :=
      (mapHas_cons_false k0 key e0 rest hhas).2
    unfold LRUCache.set
    simp only [hc]
    have hdelete : mapDelete ((k0, e0) :: rest) k0 = rest := by
      simp [mapDelete]
    have hcnd : c.maxSize ≤ ((k0, e0) :: rest).length ∧
        mapHas ((k0, e0) :: rest) key = false := by
      refine ⟨?_, hhas⟩
      omega
    rw [if_pos hcnd]
    dsimp only
    rw [hdelete, mapSet_append_of_not_has rest key _ hrest]
    refine ⟨rfl, ?_⟩
    simp only [List.length_cons] at hlen
    simp only [LRUCache.size, List.length_append, List.length_singleton]
    omega
  · intro c now key v e0 rest hc
    unfold LRUCache.set
    simp only [hc]
    have hcnd : ¬ (c.maxSize ≤ ((key, e0) :: rest).length ∧
        mapHas ((key, e0) :: rest) key = false) := by
      rintro ⟨-, h2⟩
      simp [mapHas, mapFind] at h2
    rw [if_neg hcnd, hc]
    simp [mapSet]

/-- C2 witness: the amended theorem applied at capacity 1. -/
theorem lruCache_eviction_witness :
    (applyOps (LRUCache.new ℕ 1 10)
        [CacheOp.set 0 "a" 5, CacheOp.set 1 "b" 6]).size ≤ 1 ∧
    ((⟨[("a", ⟨5, 0, 600000⟩)], 1, 600000⟩ : LRUCache ℕ).set 7 "b" 9).cache
        = [("b", ⟨9, 7, 7 + 600000⟩)] ∧
    ((⟨[("a", ⟨5, 0, 600000⟩)], 1, 600000⟩ : LRUCache ℕ).set 7 "a" 9).cache
        = [("a", ⟨9, 7, 7 + 600000⟩)] := by
  have T := lruCache_eviction ℕ 1 10 (by decide)
  refine ⟨T.1 _, ?_, ?_⟩
  · have h := T.2.1 ⟨[("a", ⟨5, 0, 600000⟩)], 1, 600000⟩ 7 "b" 9 "a"
      ⟨5, 0, 600000⟩ [] rfl rfl rfl (by decide)
    simpa using h.1
  · exact T.2.2 ⟨[("a", ⟨5, 0, 600000⟩)], 1, 600000⟩ 7 "a" 9
      ⟨5, 0, 600000⟩ [] rfl

/-- C3: with an entry stored under `key`, `get` returns its data before
`expiresAt` and absent strictly after (evicting immediately), and a
subsequent `set` on the evicted key appends a fresh entry with
`expiresAt = now + ttl` (no eviction), exactly like a fresh insert. -/
theorem lruCache_ttl (V : Type) (c : LRUCache V) (key : String) (now : ℤ)
    (entry : CacheEntry V)
    (hfind : mapFind c.cache key = some entry) :
    (now < entry.expiresAt → (c.get now key).1 = some entry.data) ∧
    (entry.expiresAt < now →
      (c.get now key).1 = none ∧
        (c.get now key).2.cache = mapDelete c.cache key) ∧
    (entry.expiresAt < now → (c.cache.map Prod.fst).Nodup →
      c.cache.length ≤ c.maxSize →
      ∀ (t2 : ℤ) (v : V),
        ((c.get now key).2.set t2 key v).cache =
          (c.get now key).2.cache ++ [(key, ⟨v, t2, t2 + c.ttl⟩)]) := by
  refine ⟨?_, ?_, ?_⟩
  · intro hlt
    unfold LRUCache.get
    simp only [hfind]
    rw [if_neg (by omega : ¬ now > entry.expiresAt)]
  · intro hgt
    unfold LRUCache.get
    simp only [hfind]
    rw [if_pos (by omega : now > entry.expiresAt)]
    exact ⟨rfl, rfl⟩
  · intro hgt hnodup hle t2 v
    have hstate : (c.get now key).2 = { c with cache := mapDelete c.cache key } := by
      unfold LRUCache.get
      simp only [hfind]
      rw [if_pos (by omega : now > entry.expiresAt)]
    rw [hstate]
    have hdel := mapDelete_length_of_find c.cache key entry hfind
    have hhas := mapHas_mapDelete_self_of_nodup c.cache key hnodup
    unfold LRUCache.set
    have hcond : ¬ (({ c with cache := mapDelete c.cache key } :
        LRUCache V).maxSize ≤ (mapDelete c.cache key).length ∧
        mapHas (mapDelete c.cache key) key = false) := by
      intro hcond
      have : c.maxSize ≤ (mapDelete c.cache key).length := hcond.1
      omega
    simp only [if_neg hcond]
    exact mapSet_append_of_not_has (mapDelete c.cache key) key _ hhas

/-- C3 witness: a one-entry cache, read before and after expiry, then
re-inserted. -/
theorem lruCache_ttl_witness :
    ((⟨[("k", ⟨5, 0, 10⟩)], 2, 7⟩ : LRUCache ℕ).get 4 "k").1 = some 5 ∧
    ((⟨[("k", ⟨5, 0, 10⟩)], 2, 7⟩ : LRUCache ℕ).get 11 "k").1 = none ∧
    ((((⟨[("k", ⟨5, 0, 10⟩)], 2, 7⟩ : LRUCache ℕ).get 11 "k").2).set 12 "k" 9).cache
      = (((⟨[("k", ⟨5, 0, 10⟩)], 2, 7⟩ : LRUCache ℕ).get 11 "k").2).cache
          ++ [("k", ⟨9, 12, 12 + 7⟩)] := by
  have T4 := lruCache_ttl ℕ ⟨[("k", ⟨5, 0, 10⟩)], 2, 7⟩ "k" 4 ⟨5, 0, 10⟩ rfl
  have T11 := lruCache_ttl ℕ ⟨[("k", ⟨5, 0, 10⟩)], 2, 7⟩ "k" 11 ⟨5, 0, 10⟩ rfl
  exact ⟨T4.1 (by decide), (T11.2.1 (by decide)).1,
    T11.2.2 (by decide) (by decide) (by decide) 12 9⟩

/-! ### Rate limiter lemmas -/

theorem check_none (rl : RateLimiter) (identifier : String) (now : ℤ)
    (limits : List (String × RateLimitEntry))
    (h : mapFind limits identifier = none) :
    rl.check identifier now limits =
      (⟨true, (rl.maxRequests : ℤ) - 1, now + rl.windowMs⟩,
       mapSet limits identifier ⟨1, now + rl.windowMs⟩) := by
  unfold RateLimiter.check
  rw [h]

theorem check_expired (rl : RateLimiter) (identifier : String) (now : ℤ)
    (limits : List (String × RateLimitEntry)) (entry : RateLimitEntry)
    (h : mapFind limits identifier = some entry)
    (hexp : entry.resetAt < now) :
    rl.check identifier now limits =
      (⟨true, (rl.maxRequests : ℤ) - 1, now + rl.windowMs⟩,
       mapSet limits identifier ⟨1, now + rl.windowMs⟩) := by
  unfold RateLimiter.check
  rw [h]
  simp only [if_pos (show now > entry.resetAt by omega)]

theorem check_denied (rl : RateLimiter) (identifier : String) (now : ℤ)
    (limits : List (String × RateLimitEntry)) (entry : RateLimitEntry)
    (h : mapFind limits identifier = some entry)
    (hin : now ≤ entry.resetAt) (hcount : rl.maxRequests ≤ entry.count) :
    rl.check identifier now limits = (⟨false, 0, entry.resetAt⟩, limits) := by
  unfold RateLimiter.check
  rw [h]
  simp only [if_neg (show ¬ now > entry.resetAt by omega), if_pos hcount]

theorem check_active (rl : RateLimiter) (identifier : String) (now : ℤ)
    (limits : List (String × RateLimitEntry)) (entry : RateLimitEntry)
    (h : mapFind limits identifier = some entry)
    (hin : now ≤ entry.resetAt) (hcount : entry.count < rl.maxRequests) :
    rl.check identifier now limits =
      (⟨true, (rl.maxRequests : ℤ) - (entry.count + 1), entry.resetAt⟩,
       mapSet limits identifier ⟨entry.count + 1, entry.resetAt⟩) := by
  unfold RateLimiter.check
  rw [h]
  simp only [if_neg (show ¬ now > entry.resetAt by omega),
    if_neg (show ¬ rl.maxRequests ≤ entry.count by omega)]

theorem checkSeq_active (rl : RateLimiter) (identifier : String) :
    ∀ (ts : List ℤ) (limits : List (String × RateLimitEntry)) (j : ℕ)
      (r : ℤ),
    mapFind limits identifier = some ⟨j, r⟩ → (∀ t ∈ ts, t ≤ r) →
    j + ts.length ≤ rl.maxRequests →
    (checkSeq rl identifier ts limits).1 =
      (List.range ts.length).map
        (fun i => ⟨true, (rl.maxRequests : ℤ) - ((j : ℤ) + (i : ℤ) + 1), r⟩) ∧
    mapFind (checkSeq rl identifier ts limits).2 identifier =
      some ⟨j + ts.length, r⟩ := by
  intro ts
  induction ts with
  | nil =>
    intro limits j r hfind _ _
    simpa [checkSeq] using hfind
  | cons t ts ih =>
    intro limits j r hfind hts hle
    have ht : t ≤ r := hts t (List.mem_cons_self t ts)
    have hcount : j < rl.maxRequests := by
      simp only [List.length_cons] at hle
      omega
    have hstep := check_active rl identifier t limits ⟨j, r⟩ hfind ht hcount
    have hfind' :
        mapFind (mapSet limits identifier ⟨j + 1, r⟩) identifier =
          some ⟨j + 1, r⟩ := mapFind_mapSet_self limits identifier _
    have hih := ih (mapSet limits identifier ⟨j + 1, r⟩) (j + 1) r hfind'
      (fun t' ht' => hts t' (List.mem_cons_of_mem t ht'))
      (by simp only [List.length_cons] at hle; omega)
    simp only [checkSeq, hstep]
    constructor
    · simp only [List.length_cons]
      rw [hih.1, List.range_succ_eq_map, List.map_cons, List.map_map]
      simp only [List.cons.injEq]
      refine ⟨?_, ?_⟩
      · simp only [RLResult.mk.injEq]
        refine ⟨by trivial, ?_, by trivial⟩
        push_cast
        ring
      · apply List.map_congr_left
        intro i _
        simp only [Function.comp_apply, RLResult.mk.injEq]
        refine ⟨by trivial, ?_, by trivial⟩
        push_cast
        ring
    · rw [hih.2]
      simp only [List.length_cons]
      congr 2
      omega

theorem checkSeq_append (rl : RateLimiter) (identifier : String) :
    ∀ (ts1 ts2 : List ℤ) (limits : List (String × RateLimitEntry)),
    checkSeq rl identifier (ts1 ++ ts2) limits =
      ((checkSeq rl identifier ts1 limits).1 ++
        (checkSeq rl identifier ts2
          (checkSeq rl identifier ts1 limits).2).1,
       (checkSeq rl identifier ts2
          (checkSeq rl identifier ts1 limits).2).2) := by
  intro ts1
  induction ts1 with
  | nil => intro ts2 limits; simp [checkSeq]
  | cons t ts ih =>
    intro ts2 limits
    simp only [List.cons_append, checkSeq, List.append_eq]
    rw [ih]

/-! ### Claims about the rate limiter -/

/-- C4: from a fresh identifier, `R` in-window `check` calls (the first
at `t0` opening the window, the rest at times `≤ t0 + W`) are all
allowed with `remaining` strictly decreasing `R-1, R-2, …, 0`; the
`(R+1)`-th in-window call is denied with `remaining = 0` and `resetAt`
unchanged; and any call strictly after `resetAt` starts a fresh window
with `remaining = R-1` and `resetAt = now + W`. -/
theorem rateLimiter_window (R : ℕ) (W : ℤ) (identifier : String) (t0 : ℤ)
    (ts : List ℤ) (tD : ℤ) (hR : 1 ≤ R) (hW : 0 ≤ W)
    (hlen : ts.length + 1 = R) (hts : ∀ t ∈ ts, t ≤ t0 + W)
    (hD : tD ≤ t0 + W) :
    (checkSeq ⟨R, W⟩ identifier (t0 :: (ts ++ [tD])) []).1 =
      ⟨true, (R : ℤ) - 1, t0 + W⟩ ::
        ((List.range ts.length).map
          (fun i => ⟨true, (R : ℤ) - ((i : ℤ) + 2), t0 + W⟩) ++
         [⟨false, 0, t0 + W⟩]) ∧
    ∀ tF, t0 + W < tF →
      RateLimiter.check ⟨R, W⟩ identifier tF
          (checkSeq ⟨R, W⟩ identifier (t0 :: (ts ++ [tD])) []).2 =
        (⟨true, (R : ℤ) - 1, tF + W⟩,
         mapSet (checkSeq ⟨R, W⟩ identifier (t0 :: (ts ++ [tD])) []).2
           identifier ⟨1, tF + W⟩) := by
  have h1 : RateLimiter.check ⟨R, W⟩ identifier t0 [] =
      (⟨true, (R : ℤ) - 1, t0 + W⟩, [(identifier, ⟨1, t0 + W⟩)]) := by
    rw [check_none ⟨R, W⟩ identifier t0 [] rfl]
    rfl
  have hfind1 :
      mapFind [(identifier, (⟨1, t0 + W⟩ : RateLimitEntry))] identifier =
        some ⟨1, t0 + W⟩ := by
    simp [mapFind]
  have hact := checkSeq_active ⟨R, W⟩ identifier ts
    [(identifier, ⟨1, t0 + W⟩)] 1 (t0 + W) hfind1 hts
    (show 1 + ts.length ≤ R by omega)
  set s2 := (checkSeq ⟨R, W⟩ identifier ts
    [(identifier, ⟨1, t0 + W⟩)]).2 with hs2
  have hentry : (⟨1 + ts.length, t0 + W⟩ : RateLimitEntry) = ⟨R, t0 + W⟩ := by
    congr 1
    omega
  have hfind2 : mapFind s2 identifier = some ⟨R, t0 + W⟩ := by
    rw [← hentry]
    exact hact.2
  have hden := check_denied ⟨R, W⟩ identifier tD s2 ⟨R, t0 + W⟩ hfind2 hD
    (le_refl R)
  have htail : checkSeq ⟨R, W⟩ identifier [tD] s2 =
      ([⟨false, 0, t0 + W⟩], s2) := by
    simp only [checkSeq, hden]
  have hmain : checkSeq ⟨R, W⟩ identifier (t0 :: (ts ++ [tD])) [] =
      ((⟨true, (R : ℤ) - 1, t0 + W⟩ : RLResult) ::
        ((checkSeq ⟨R, W⟩ identifier ts
          [(identifier, ⟨1, t0 + W⟩)]).1 ++ [⟨false, 0, t0 + W⟩]), s2) := by
    simp only [checkSeq, h1]
    rw [checkSeq_append ⟨R, W⟩ identifier ts [tD], ← hs2, htail]
  constructor
  · rw [hmain]
    simp only [hact.1, List.cons.injEq, List.append_cancel_right_eq]
    refine ⟨by trivial, ?_⟩
    apply List.map_congr_left
    intro i _
    simp only [RLResult.mk.injEq]
    refine ⟨by trivial, ?_, by trivial⟩
    push_cast
    ring
  · intro tF htF
    rw [hmain]
    exact check_expired ⟨R, W⟩ identifier tF s2 ⟨R, t0 + W⟩ hfind2 htF

/-- C4 witness: `R = 2`, `W = 5`, calls at 0, 1, 2, then at 6. -/
theorem rateLimiter_window_witness :
    (checkSeq ⟨2, 5⟩ "ip" [0, 1, 2] []).1 =
      [⟨true, 1, 5⟩, ⟨true, 0, 5⟩, ⟨false, 0, 5⟩] ∧
    RateLimiter.check ⟨2, 5⟩ "ip" 6 (checkSeq ⟨2, 5⟩ "ip" [0, 1, 2] []).2 =
      (⟨true, 1, 11⟩,
       mapSet (checkSeq ⟨2, 5⟩ "ip" [0, 1, 2] []).2 "ip" ⟨1, 11⟩) := by
  have T := rateLimiter_window 2 5 "ip" 0 [1] 2 (by decide) (by decide)
    (by decide) (by decide) (by decide)
  exact ⟨T.1.trans (by decide), (T.2 6 (by decide)).trans (by decide)⟩

/-- C10: a denied `check` (active window, `count ≥ R`) returns
`allowed = false` and leaves the stored map untouched; any number of
denied in-window calls still leaves it untouched; and the first call
strictly after `resetAt` always succeeds with a fresh window. -/
theorem rateLimiter_denied_state (rl : RateLimiter) (identifier : String)
    (limits : List (String × RateLimitEntry)) (entry : RateLimitEntry)
    (hfind : mapFind limits identifier = some entry)
    (hcount : rl.maxRequests ≤ entry.count) :
    (∀ now, now ≤ entry.resetAt →
      rl.check identifier now limits =
        (⟨false, 0, entry.resetAt⟩, limits)) ∧
    (∀ ts : List ℤ, (∀ t ∈ ts, t ≤ entry.resetAt) →
      checkSeq rl identifier ts limits =
        (List.replicate ts.length ⟨false, 0, entry.resetAt⟩, limits)) ∧
    (∀ t', entry.resetAt < t' →
      rl.check identifier t' limits =
        (⟨true, (rl.maxRequests : ℤ) - 1, t' + rl.windowMs⟩,
         mapSet limits identifier ⟨1, t' + rl.windowMs⟩)) := by
  refine ⟨?_, ?_, ?_⟩
  · intro now hin
    exact check_denied rl identifier now limits entry hfind hin hcount
  · intro ts
    induction ts with
    | nil => intro _; simp [checkSeq]
    | cons t ts ih =>
      intro hts
      have hd := check_denied rl identifier t limits entry hfind
        (hts t (List.mem_cons_self t ts)) hcount
      have hrest := ih (fun t' ht' => hts t' (List.mem_cons_of_mem t ht'))
      simp only [checkSeq, hd, hrest, List.length_cons, List.replicate_succ]
  · intro t' ht'
    exact check_expired rl identifier t' limits entry hfind ht'

/-- C10 witness: `R = 1` with an exhausted window. -/
theorem rateLimiter_denied_state_witness :
    RateLimiter.check ⟨1, 5⟩ "ip" 3 [("ip", ⟨1, 10⟩)] =
      (⟨false, 0, 10⟩, [("ip", ⟨1, 10⟩)]) ∧
    checkSeq ⟨1, 5⟩ "ip" [3, 4] [("ip", ⟨1, 10⟩)] =
      ([⟨false, 0, 10⟩, ⟨false, 0, 10⟩], [("ip", ⟨1, 10⟩)]) ∧
    RateLimiter.check ⟨1, 5⟩ "ip" 11 [("ip", ⟨1, 10⟩)] =
      (⟨true, 0, 16⟩, [("ip", ⟨1, 16⟩)]) := by
  have T := rateLimiter_denied_state ⟨1, 5⟩ "ip" [("ip", ⟨1, 10⟩)]
    ⟨1, 10⟩ rfl (by decide)
  exact ⟨T.1 3 (by decide), (T.2.1 [3, 4] (by decide)).trans (by decide),
    (T.2.2 11 (by decide)).trans (by decide)⟩

/-! ### Rounding and sorting lemmas -/

theorem jsRound_intCast (n : ℤ) : jsRound (n : ℚ) = n := by
  unfold jsRound
  rw [add_comm, Int.floor_add_int]
  norm_num

theorem jsRound_max_zero (x : ℚ) : jsRound (max 0 x) = max 0 (jsRound x) := by
  rcases le_total 0 x with h | h
  · rw [max_eq_right h, eq_comm, max_eq_right]
    unfold jsRound
    have : ((0 : ℤ) : ℚ) ≤ x + 1/2 := by linarith
    exact Int.le_floor.mpr this
  · rw [max_eq_left h, eq_comm, max_eq_left]
    · unfold jsRound
      norm_num
    · unfold jsRound
      calc ⌊x + 1/2⌋ ≤ ⌊(0 : ℚ) + 1/2⌋ := Int.floor_le_floor (by linarith)
      _ = 0 := by norm_num

theorem insertSorted_length (x : ℤ) (l : List ℤ) :
    (insertSorted x l).length = l.length + 1 := by
  induction l with
  | nil => simp [insertSorted]
  | cons y ys ih =>
    by_cases h : x ≤ y
    · simp [insertSorted, h]
    · simp [insertSorted, h, ih]

theorem sortAsc_length (l : List ℤ) : (sortAsc l).length = l.length := by
  induction l with
  | nil => rfl
  | cons x xs ih =>
    have h : sortAsc (x :: xs) = insertSorted x (sortAsc xs) := rfl
    rw [h, insertSorted_length, ih]
    rfl

/-! ### Claims about the recency scores -/

/-- C1 counterexample: for a single repository last pushed 1000 days
ago, the Aggregator's inline recency score is 20 while the utility
`calculateRecencyScore` yields 10 — the two computations are not
identical. -/
theorem recencyScores_cex :
    buildRecencyScore (1000 * 86400000) [0] = 20 ∧
    calculateRecencyScore (1000 * 86400000) [0] = 10 ∧
    buildRecencyScore (1000 * 86400000) [0] ≠
      calculateRecencyScore (1000 * 86400000) [0] := by
  have hd : daysSince (1000 * 86400000) 0 = 1000 := by
    unfold daysSince msPerDay
    norm_num
  have hb : repoRecencyBucket (daysSince (1000 * 86400000) 0) = 10 := by
    rw [hd]
    unfold repoRecencyBucket
    norm_num
  have h1 : buildRecencyScore (1000 * 86400000) [0] = 20 := by
    simp only [buildRecencyScore, List.map_cons, List.map_nil, List.sum_cons,
      List.sum_nil, add_zero, List.length_cons, List.length_nil, Nat.cast_one]
    rw [hd]
    norm_num
  have h2 : calculateRecencyScore (1000 * 86400000) [0] = 10 := by
    have hb' : repoRecencyBucket (daysSince 86400000000 0) = 10 := by
      norm_num at hb
      exact hb
    norm_num [calculateRecencyScore, hb', jsRound_intCast]
    unfold jsRound
    rw [Int.floor_eq_iff]
    norm_num
  exact ⟨h1, h2, by rw [h1, h2]; decide⟩

/-- C1 (amended): the two recency computations share the boundaries
`<30→100, <90→80, <180→60, <365→40`, but the Aggregator buckets the
average days-since-push with `else→20` while `calculateRecencyScore`
buckets each repository separately with two extra buckets
(`<730→20, else→10`) and returns the rounded mean; on a single-repo
list they agree exactly when the days-since-push is below 730, and
differ (20 versus 10) from 730 days on. -/
theorem recencyScores_single (now t : ℤ) :
    (daysSince now t < 730 →
      buildRecencyScore now [t] = calculateRecencyScore now [t]) ∧
    (730 ≤ daysSince now t →
      buildRecencyScore now [t] = 20 ∧ calculateRecencyScore now [t] = 10) := by
  have hbuild : buildRecencyScore now [t] =
      (if daysSince now t < 30 then 100
       else if daysSince now t < 90 then 80
       else if daysSince now t < 180 then 60
       else if daysSince now t < 365 then 40
       else 20) := by
    simp [buildRecencyScore]
  have hcalc : calculateRecencyScore now [t] =
      repoRecencyBucket (daysSince now t) := by
    simp [calculateRecencyScore, jsRound_intCast]
  constructor
  · intro h730
    rw [hbuild, hcalc]
    unfold repoRecencyBucket
    split_ifs <;> first | rfl | (exfalso; linarith)
  · intro h730
    rw [hbuild, hcalc]
    unfold repoRecencyBucket
    constructor <;> (split_ifs <;> first | rfl | (exfalso; linarith))

/-- C1 witness: agreement at 100 days, divergence at exactly 730. -/
theorem recencyScores_single_witness :
    buildRecencyScore (100 * 86400000) [0] =
      calculateRecencyScore (100 * 86400000) [0] ∧
    (buildRecencyScore (730 * 86400000) [0] = 20 ∧
      calculateRecencyScore (730 * 86400000) [0] = 10) :=
  ⟨(recencyScores_single (100 * 86400000) 0).1
      (by unfold daysSince msPerDay; norm_num),
   (recencyScores_single (730 * 86400000) 0).2
      (by unfold daysSince msPerDay; norm_num)⟩

/-! ### Claims about the consistency scores -/

/-- C6 counterexample: the utility `calculateConsistencyScore` returns 0
— not 50 — for an empty repository list, although fewer than 2
timestamps are available. -/
theorem consistencyScore_cex :
    calculateConsistencyScore (fun q => q) [] = 0 ∧
    calculateConsistencyScore (fun q => q) [] ≠ 50 := by
  refine ⟨?_, ?_⟩ <;> decide

/-- C6 (amended): with `Math.sqrt` abstracted as `sq`, the Aggregator's
inline consistency score equals the spec formula (sort ascending,
successive gaps, `max(0, round(100 - (stddev/mean_gap)*50))`, and 50
for fewer than 2 timestamps) on every input, and the utility
`calculateConsistencyScore` equals it on every non-empty input (on the
empty list the utility returns 0 instead of 50). -/
theorem consistencyScores_spec (sq : ℚ → ℚ) (updates : List ℤ) :
    buildConsistencyScore sq updates = specConsistencyScore sq updates ∧
    (updates ≠ [] →
      calculateConsistencyScore sq updates = specConsistencyScore sq updates) := by
  constructor
  · unfold buildConsistencyScore specConsistencyScore
    by_cases h : 1 < updates.length
    · rw [if_pos h, if_neg (by omega)]
    · rw [if_neg h, if_pos (by omega)]
  · intro hne
    have hlen0 : ¬ updates.length = 0 := by
      simpa using fun h => hne (List.length_eq_zero.mp h)
    have hsort : (sortAsc updates).length = updates.length :=
      sortAsc_length updates
    unfold calculateConsistencyScore specConsistencyScore
    rw [if_neg hlen0]
    by_cases h : 1 < updates.length
    · rw [if_neg (by omega : ¬ (sortAsc updates).length < 2),
        if_neg (by omega : ¬ updates.length < 2)]
      exact jsRound_max_zero _
    · rw [if_pos (by omega : (sortAsc updates).length < 2),
        if_pos (by omega : updates.length < 2)]

/-- C6 witness: both code copies against the spec formula on a concrete
list, with the identity as the abstract square root. -/
theorem consistencyScores_spec_witness :
    buildConsistencyScore (fun q => q) [1, 2, 4] =
      specConsistencyScore (fun q => q) [1, 2, 4] ∧
    calculateConsistencyScore (fun q => q) [1, 2, 4] =
      specConsistencyScore (fun q => q) [1, 2, 4] :=
  ⟨(consistencyScores_spec (fun q => q) [1, 2, 4]).1,
   (consistencyScores_spec (fun q => q) [1, 2, 4]).2 (by decide)⟩

/-! ### Claims about the topics breakdown -/

theorem bumpTopic_find (m : List (String × ℕ)) (t t' : String) :
    (mapFind (bumpTopic m t) t').getD 0 =
      if t = t' then (mapFind m t').getD 0 + 1
      else (mapFind m t').getD 0 := by
  by_cases h : t = t'
  · subst h
    rw [if_pos rfl]
    unfold bumpTopic
    rw [mapFind_mapSet_self]
    rfl
  · rw [if_neg h]
    unfold bumpTopic
    rw [mapFind_mapSet_ne _ _ _ _ (fun hh => h hh.symm)]

theorem foldl_bumpTopic_find (ts : List String) :
    ∀ (m : List (String × ℕ)) (t : String),
    (mapFind (ts.foldl bumpTopic m) t).getD 0 =
      (mapFind m t).getD 0 + ts.count t := by
  induction ts with
  | nil => intro m t; simp
  | cons x ts ih =>
    intro m t
    simp only [List.foldl_cons]
    rw [ih, bumpTopic_find]
    rw [List.count_cons]
    by_cases h : x = t
    · rw [if_pos h]
      simp [h]
      omega
    · rw [if_neg h]
      simp [h]

theorem topicsBreakdown_find (repos : List (List String)) (t : String) :
    (mapFind (topicsBreakdown repos) t).getD 0 =
      (repos.map (fun ts => ts.count t)).sum := by
  unfold topicsBreakdown
  suffices h : ∀ m : List (String × ℕ),
      (mapFind (repos.foldl (fun m ts => ts.foldl bumpTopic m) m) t).getD 0 =
        (mapFind m t).getD 0 + (repos.map (fun ts => ts.count t)).sum by
    simpa [mapFind] using h []
  induction repos with
  | nil => intro m; simp
  | cons ts repos ih =>
    intro m
    simp only [List.foldl_cons, List.map_cons, List.sum_cons]
    rw [ih, foldl_bumpTopic_find]
    omega

/-- C9 counterexample: a repository whose topic list repeats `nft`
contributes 2 to `topicsBreakdown["nft"]`, not 1 — occurrences are
counted, not repositories. -/
theorem topicsBreakdown_cex :
    (mapFind (topicsBreakdown [["nft", "nft"]]) "nft").getD 0 = 2 ∧
    (([["nft", "nft"]] : List (List String)).filter
        (fun ts => decide ("nft" ∈ ts))).length = 1 ∧
    (2 : ℕ) ≠ 1 := by
  refine ⟨?_, ?_, ?_⟩ <;> decide

/-- C9 (amended): `topicsBreakdown[t]` equals the total number of
occurrences of `t` across all repositories' topic lists; when every
repository's topic list is duplicate-free (as GitHub returns them),
this equals the number of repositories whose topic list contains
`t`. -/
theorem topicsBreakdown_spec (repos : List (List String)) (t : String) :
    (mapFind (topicsBreakdown repos) t).getD 0 =
      (repos.map (fun ts => ts.count t)).sum ∧
    ((∀ ts ∈ repos, ts.Nodup) →
      (mapFind (topicsBreakdown repos) t).getD 0 =
        (repos.filter (fun ts => decide (t ∈ ts))).length) := by
  refine ⟨topicsBreakdown_find repos t, ?_⟩
  intro hnodup
  rw [topicsBreakdown_find]
  induction repos with
  | nil => simp
  | cons ts repos ih =>
    have htail := ih (fun ts' h' => hnodup ts' (List.mem_cons_of_mem ts h'))
    simp only [List.map_cons, List.sum_cons, List.filter_cons]
    by_cases hmem : t ∈ ts
    · have hcount : ts.count t = 1 :=
        List.count_eq_one_of_mem (hnodup ts (List.mem_cons_self ts repos)) hmem
      simp [hmem, hcount, htail]
      omega
    · have hcount : ts.count t = 0 := List.count_eq_zero.mpr hmem
      simp [hmem, hcount, htail]

/-- C9 witness: two repositories, one containing the topic twice over
the Nodup branch with duplicate-free lists. -/
theorem topicsBreakdown_spec_witness :
    (mapFind (topicsBreakdown [["a"], ["a", "b"]]) "a").getD 0 =
      (([["a"], ["a", "b"]] : List (List String)).map
        (fun ts => ts.count "a")).sum ∧
    (mapFind (topicsBreakdown [["a"], ["a", "b"]]) "a").getD 0 =
      (([["a"], ["a", "b"]] : List (List String)).filter
        (fun ts => decide ("a" ∈ ts))).length :=
  ⟨(topicsBreakdown_spec [["a"], ["a", "b"]] "a").1,
   (topicsBreakdown_spec [["a"], ["a", "b"]] "a").2 (by decide)⟩

/-! ### Claims about `detectWeb3` -/

/-- C5: for every repository and content value, `isWeb3` is true exactly
when the evidence list is non-empty, and the confidence tier is high
for 3 or more evidence items, medium for exactly 2, and low
otherwise. -/
theorem detectWeb3_flags (repo : GitHubRepo) (content : Option RepoContent) :
    ((detectWeb3 repo content).isWeb3 = true ↔
      (detectWeb3 repo content).evidence ≠ []) ∧
    (detectWeb3 repo content).confidence =
      (if 3 ≤ (detectWeb3 repo content).evidence.length then Confidence.high
       else if (detectWeb3 repo content).evidence.length = 2 then
         Confidence.medium
       else Confidence.low) := by
  have hweb : (detectWeb3 repo content).isWeb3 =
      decide (0 < (detectWeb3 repo content).evidence.length) := rfl
  have hconf : (detectWeb3 repo content).confidence =
      (if 3 ≤ (detectWeb3 repo content).evidence.length then Confidence.high
       else if 2 ≤ (detectWeb3 repo content).evidence.length then
         Confidence.medium
       else Confidence.low) := rfl
  constructor
  · rw [hweb]
    simp [List.length_pos]
  · rw [hconf]
    by_cases h3 : 3 ≤ (detectWeb3 repo content).evidence.length
    · rw [if_pos h3, if_pos h3]
    · rw [if_neg h3, if_neg h3]
      by_cases h2 : 2 ≤ (detectWeb3 repo content).evidence.length
      · rw [if_pos h2,
          if_pos (by omega : (detectWeb3 repo content).evidence.length = 2)]
      · rw [if_neg h2,
          if_neg (by omega : ¬ (detectWeb3 repo content).evidence.length = 2)]

/-- C7: with content and a README present, the evidence list decomposes
into the topic, framework, contracts, README and language items in
order, where the README item is present exactly when strictly more than
2 keywords of the fixed vocabulary occur in the lower-cased README, and
it lists only the first 3 matched keywords. -/
theorem detectWeb3_readme (topics : List String) (language : Option String)
    (readme : String) (hasSol : Bool) (frameworks : List String) :
    (detectWeb3 ⟨topics, language⟩
        (some ⟨some readme, hasSol, frameworks⟩)).evidence =
      (if 0 < (topics.filter
            (fun topic => web3Topics.contains topic.toLower)).length then
        ["Topics: " ++ String.intercalate ", "
          (topics.filter (fun topic => web3Topics.contains topic.toLower))]
       else []) ++
      (if 0 < frameworks.length then
        ["Frameworks: " ++ String.intercalate ", " frameworks]
       else []) ++
      (if hasSol = true ∧ language = some "Solidity" then
        ["Solidity contracts detected"]
       else []) ++
      (if 2 < (web3Keywords.filter
            (fun keyword => strIncludes readme.toLower keyword)).length then
        ["README contains: " ++ String.intercalate ", "
          ((web3Keywords.filter
            (fun keyword => strIncludes readme.toLower keyword)).take 3)]
       else []) ++
      (if language = some "Solidity" then
        ["Primary language: Solidity"]
       else []) := by
  simp only [detectWeb3]
  simp [apply_ite Prod.fst, List.append_assoc]

/-! ### Claim about `githubFetch` status handling (C8) -/

/-- C8: `githubFetch` (hence `fetchGitHubProfile`/`fetchGitHubRepos`)
fails with the not-found error exactly when the status is 404, with the
rate-limited error carrying the header value (default 0) exactly when
the status is 403, succeeds exactly on 2xx, and fails with the generic
error carrying the status code on any other non-2xx status. -/
theorem githubFetch_errors (status : ℕ) (statusText : String)
    (rateLimitHeader : Option ℤ) :
    (githubFetchStatus status statusText rateLimitHeader =
        .error ⟨"User or resource not found", some 404, none⟩ ↔
      status = 404) ∧
    (githubFetchStatus status statusText rateLimitHeader =
        .error ⟨"Rate limit exceeded or forbidden", some 403,
                some (rateLimitHeader.getD 0)⟩ ↔
      status = 403) ∧
    (responseOk status = true ↔
      githubFetchStatus status statusText rateLimitHeader = .ok ()) ∧
    (responseOk status = false → status ≠ 404 → status ≠ 403 →
      githubFetchStatus status statusText rateLimitHeader =
        .error ⟨"GitHub API error: " ++ statusText, some status, none⟩) := by
  unfold githubFetchStatus
  by_cases hok : responseOk status = true
  · have hrange : 200 ≤ status ∧ status ≤ 299 := by
      simpa [responseOk] using hok
    rw [if_pos (by simp [hok])]
    refine ⟨?_, ?_, ?_, ?_⟩
    · constructor
      · intro h
        exact absurd h (by simp)
      · intro h
        omega
    · constructor
      · intro h
        exact absurd h (by simp)
      · intro h
        omega
    · simp [hok]
    · intro hfalse
      rw [hok] at hfalse
      exact absurd hfalse (by simp)
  · have hfalse : responseOk status = false := by
      cases h : responseOk status
      · rfl
      · exact absurd h hok
    rw [if_neg (by simp [hfalse])]
    by_cases h404 : status = 404
    · subst h404
      rw [if_pos rfl]
      refine ⟨by simp, ?_, ?_, ?_⟩
      · simp only [Except.error.injEq, GitHubAPIError.mk.injEq]
        constructor
        · intro h
          exact absurd h.1 (by decide)
        · intro h
          omega
      · simp [hfalse]
      · intro _ hne _
        exact absurd rfl hne
    · rw [if_neg h404]
      by_cases h403 : status = 403
      · subst h403
        rw [if_pos rfl]
        refine ⟨?_, by simp, ?_, ?_⟩
        · simp only [Except.error.injEq, GitHubAPIError.mk.injEq]
          constructor
          · intro h
            exact absurd h.1 (by decide)
          · intro h
            omega
        · simp [hfalse]
        · intro _ _ hne
          exact absurd rfl hne
      · rw [if_neg h403]
        refine ⟨?_, ?_, ?_, ?_⟩
        · simp only [Except.error.injEq, GitHubAPIError.mk.injEq]
          constructor
          · intro h
            exact absurd h.2.1 (by simpa using h404)
          · intro h
            exact absurd h h404
        · simp only [Except.error.injEq, GitHubAPIError.mk.injEq]
          constructor
          · intro h
            exact absurd h.2.1 (by simpa using h403)
          · intro h
            exact absurd h h403
        · simp [hfalse]
        · intro _ _ _
          rfl

/-- C8 witness: the generic branch at status 500, with hypotheses
discharged concretely. -/
theorem githubFetch_errors_witness :
    githubFetchStatus 500 "Internal Server Error" none =
      .error ⟨"GitHub API error: " ++ "Internal Server Error",
              some 500, none⟩ :=
  (githubFetch_errors 500 "Internal Server Error" none).2.2.2
    (by decide) (by decide) (by decide)

end GithubAnalyzer
